import Mathlib

/-!
Shallow embedding of the rate-limited task queue in src/flow-control.js
(class FlowControl) together with a small-step operational semantics of the
single-threaded JavaScript event loop that drives it.

Modelling conventions:
* `Date.now()` readings are supplied by the environment as explicit integer
  arguments of each event; within one synchronous tick the successive
  readings are required to be non-decreasing (the wall clock is assumed
  monotone while one tick runs).
* JavaScript numbers used by the flow-control arithmetic are modelled as
  exact rationals (`maxFlow`, `minInterval`) and integers (timestamps);
  `60 * 1000 / maxFlow` is exact division in the rationals.  When
  `maxFlow = 0`, JavaScript yields `Infinity` and the rational model yields
  `0`, but `_checkFlow` reads `minInterval` only under `maxFlow > 0`, so the
  two agree on every observable behaviour.
* A caller-supplied argument object is modelled as an association list of
  string fields (`JsObj`); the queue and the caller alias the same object,
  so its current value is stored in the queue state and a mutation performed
  by the queue is observable to the caller.
* A submitted callable either returns an awaitable that eventually settles
  with an outcome (`Behavior.returns`), or throws synchronously when invoked
  (`Behavior.throws`, which also covers returning a non-thenable, since
  `.then` then raises a `TypeError` synchronously).
* Ghost instrumentation (never read by the transition functions):
  `dispatchLog` records `(submission id, dispatch time)` in dispatch order,
  and `errorsLogged` counts error-level log lines emitted by the catch
  branch of `_executeTask`.
-/

set_option linter.unusedVariables false

deriving instance DecidableEq for Except

namespace FlowControl

/-- A JavaScript object reachable from the argument list, as an association
list of string-valued own properties. -/
abbrev JsObj := List (String × String)

/-- What the submitted callable does when invoked with its arguments. -/
inductive Behavior (E V : Type) where
  | throws
  | returns (outcome : Except E V)
deriving DecidableEq

/-- State of the promise handed back to the caller of `call`. -/
inductive PromiseState (E V : Type) where
  | pending
  | resolved (v : V)
  | rejected (e : E)
deriving DecidableEq

/-- One submission made through `call`: the callable, the (aliased, mutable)
argument objects, and the state of the promise returned to the caller. -/
structure Submission (E V : Type) where
  behavior : Behavior E V
  args : List JsObj
  promise : PromiseState E V
deriving DecidableEq

/-- A queued task closure produced by `_createTask`: it captures the caller
(`behavior`) and the identity of the submission whose resolve/reject it
will call. -/
structure Task (E V : Type) where
  id : ℕ
  behavior : Behavior E V
deriving DecidableEq

/-- A dispatched but not yet settled task: the promise chain built inside
the task closure, with the captured `beginTime` and the eventual outcome of
the awaitable returned by the caller. -/
structure Running (E V : Type) where
  id : ℕ
  beginTime : ℤ
  outcome : Except E V
deriving DecidableEq

/-- The state of one `FlowControl` instance plus the event-loop context
(`timers`, `running`, the submissions) and ghost instrumentation
(`dispatchLog`, `errorsLogged`, `clock`). -/
structure FCState (E V : Type) where
  /-- `this._maxFlow`. -/
  maxFlow : ℚ
  /-- `this._minInterval = (60 * 1000) / this._maxFlow`. -/
  minInterval : ℚ
  /-- `this._name` (log attribution only). -/
  name : String
  /-- `this._count`: tasks dispatched and not yet settled. -/
  count : ℤ
  /-- `this._lastExecuteTime`. -/
  lastExecuteTime : ℤ
  /-- `this._taskQueue` (FIFO of task closures). -/
  taskQueue : List (Task E V)
  /-- `this._totalTime` (cumulative task duration, ms). -/
  totalTime : ℤ
  /-- `this._total` (cumulative settled-task count). -/
  total : ℕ
  /-- All submissions made so far, indexed by submission id. -/
  subs : List (Submission E V)
  /-- Dispatched tasks whose awaitable has not settled yet. -/
  running : List (Running E V)
  /-- Number of pending `setTimeout(() => this._executeTask(), 0)` callbacks. -/
  timers : ℕ
  /-- Largest `Date.now()` reading handed out so far (ghost). -/
  clock : ℤ
  /-- Ghost log: (submission id, dispatch time) in dispatch order. -/
  dispatchLog : List (ℕ × ℤ)
  /-- Ghost count of error-level log lines from the catch in `_executeTask`. -/
  errorsLogged : ℕ
deriving DecidableEq

/-- The constructor `new FlowControl(maxFlow, name)` in an idle event loop. -/
def init (E V : Type) (maxFlow : ℚ) (name : String) : FCState E V where
  maxFlow := maxFlow
  minInterval := 60 * 1000 / maxFlow
  name := name
  count := 0
  lastExecuteTime := 0
  taskQueue := []
  totalTime := 0
  total := 0
  subs := []
  running := []
  timers := 0
  clock := 0
  dispatchLog := []
  errorsLogged := 0

/-- `_checkFlow`, with the fields it reads passed explicitly and the
`Date.now()` reading passed as `now`.  Returns the boolean result together
with the new value of `this._lastExecuteTime` (updated only on the
passing branch with `maxFlow > 0`). -/
def checkFlow (maxFlow minInterval : ℚ) (lastExecuteTime now : ℤ) : Bool × ℤ :=
  if 0 < maxFlow then
    if ((now - lastExecuteTime : ℤ) : ℚ) < minInterval then
      (false, lastExecuteTime)
    else
      (true, now)
  else
    (true, lastExecuteTime)

/-- `call(caller, ...args)`: create the task closure, schedule the driving
loop when the queue was empty (`this._taskQueue.length <= 0` is tested
before the push in the source), and push the task. -/
def callStep (s : FCState E V) (b : Behavior E V) (args : List JsObj) : FCState E V :=
  { s with
    subs := s.subs ++ [{ behavior := b, args := args, promise := .pending }],
    timers := if s.taskQueue.length ≤ 0 then s.timers + 1 else s.timers,
    taskQueue := s.taskQueue ++ [{ id := s.subs.length, behavior := b }] }

/-- Invoking the task closure built by `_createTask`: `beginTime` is the
`Date.now()` read inside the closure.  If the caller throws synchronously
the `.then` chain is never attached and the exception propagates out of
`task()` (`Except.error`); otherwise the chain is attached, the task enters
`running`, and `this._count++` runs. -/
def runTask (beginTime : ℤ) (t : Task E V) (s : FCState E V) : Except Unit (FCState E V) :=
  match t.behavior with
  | .throws => .error ()
  | .returns o =>
      .ok { s with
        running := s.running ++ [{ id := t.id, beginTime := beginTime, outcome := o }],
        count := s.count + 1 }

/-- The try/catch body of `_executeTask`.  `n1` is the `Date.now()` read
inside `_checkFlow`, `n2` the one in `this._lastExecuteTime = Date.now()`
(which overwrites the provisional commit made inside `_checkFlow`), and
`n3` the `beginTime` read inside the task closure. -/
def executeTaskTry (s : FCState E V) (n1 n2 n3 : ℤ) : FCState E V :=
  match s.taskQueue with
  | [] => s
  | task :: rest =>
    match checkFlow s.maxFlow s.minInterval s.lastExecuteTime n1 with
    | (false, last1) => { s with lastExecuteTime := last1, clock := n1 }
    | (true, _last1) =>
      let sD : FCState E V :=
        { s with lastExecuteTime := n2, taskQueue := rest, clock := n3,
                 dispatchLog := s.dispatchLog ++ [(task.id, n2)] }
      match runTask n3 task sD with
      | .ok s2 => s2
      | .error _ => { sD with errorsLogged := sD.errorsLogged + 1 }

/-- One firing of a scheduled `_executeTask` callback: run the try/catch
body, then (outside the try/catch) re-schedule another callback iff the
queue is still non-empty. -/
def executeTask (s : FCState E V) (n1 n2 n3 : ℤ) : FCState E V :=
  let s1 := executeTaskTry s n1 n2 n3
  { s1 with timers := s.timers - 1 + (if 0 < s1.taskQueue.length then 1 else 0) }

/-- The `args.map` inside the `.finally` of `_createTask`:
`if (arg && arg.hasOwnProperty("token")) delete arg.token; return arg` —
it mutates the caller-owned object in place. -/
def outputArg (arg : JsObj) : JsObj :=
  if arg.any (fun p => p.1 == "token") then arg.filter (fun p => p.1 != "token") else arg

/-- Semantics of calling `resolve`/`reject` of an already created promise:
the first settlement wins, later calls are ignored. -/
def settleWith (o : Except E V) : PromiseState E V → PromiseState E V
  | .pending =>
      match o with
      | .ok v => .resolved v
      | .error e => .rejected e
  | p => p

/-- Replace the element at index `i` (out-of-range indices leave the list
unchanged). -/
def modifyIdx (f : α → α) : ℕ → List α → List α
  | _, [] => []
  | 0, a :: as => f a :: as
  | n + 1, a :: as => a :: modifyIdx f n as

/-- Settlement of the awaitable of the `i`-th running task at time `n`:
`.then(resolve).catch(reject)` settles the caller promise with the exact
outcome, then the `.finally` runs `this._count--`, the token-stripping
`args.map`, `this._total++` and `this._totalTime += Date.now() - beginTime`. -/
def settleRunning (s : FCState E V) (i : ℕ) (n : ℤ) : FCState E V :=
  match s.running.get? i with
  | none => s
  | some r =>
    { s with
      running := s.running.eraseIdx i,
      clock := n,
      count := s.count - 1,
      total := s.total + 1,
      totalTime := s.totalTime + (n - r.beginTime),
      subs := modifyIdx (fun sub => { sub with args := sub.args.map outputArg }) r.id
        (modifyIdx (fun sub => { sub with promise := settleWith r.outcome sub.promise })
          r.id s.subs) }

/-- Events of the single-threaded event loop. -/
inductive Ev (E V : Type) where
  | call (b : Behavior E V) (args : List JsObj)
  | tick (n1 n2 n3 : ℤ)
  | settle (i : ℕ) (n : ℤ)

/-- Small-step transition relation.  A `tick` may fire only when a timer is
scheduled; a `settle` may fire only for an actual running task; all clock
readings are at least the largest reading handed out so far. -/
inductive Step : FCState E V → Ev E V → FCState E V → Prop where
  | call (s : FCState E V) (b : Behavior E V) (args : List JsObj) :
      Step s (.call b args) (callStep s b args)
  | tick (s : FCState E V) (n1 n2 n3 : ℤ) (ht : 0 < s.timers)
      (h1 : s.clock ≤ n1) (h2 : n1 ≤ n2) (h3 : n2 ≤ n3) :
      Step s (.tick n1 n2 n3) (executeTask s n1 n2 n3)
  | settle (s : FCState E V) (i : ℕ) (n : ℤ) (hi : i < s.running.length)
      (hn : s.clock ≤ n) :
      Step s (.settle i n) (settleRunning s i n)

/-- States reachable from a freshly constructed `FlowControl(m, nm)`. -/
inductive Reachable {E V : Type} (m : ℚ) (nm : String) : FCState E V → Prop where
  | init : Reachable m nm (init E V m nm)
  | step {s : FCState E V} {e : Ev E V} {s' : FCState E V} :
      Reachable m nm s → Step s e s' → Reachable m nm s'

/-! ### Concrete executions (used to witness the general theorems) -/

/-- Argument list of the demo submission: one object holding a credential
field named token and an ordinary field. -/
def demoArgs : List JsObj := [[("token", "secret"), ("user", "alice")]]

/-- Unlimited demo queue (`maxPerMinute = 0`). -/
def s0 : FCState ℕ ℕ := init ℕ ℕ 0 "demo"

/-- After one submission whose callable resolves with 7. -/
def s1 : FCState ℕ ℕ := callStep s0 (.returns (.ok 7)) demoArgs

/-- After the tick that dispatches it (all clock readings at 10). -/
def s2 : FCState ℕ ℕ := executeTask s1 10 10 10

/-- After its settlement at time 15. -/
def s3 : FCState ℕ ℕ := settleRunning s2 0 15

/-- Rate-limited demo queue (`maxPerMinute = 60`, so 1000 ms spacing). -/
def r0 : FCState ℕ ℕ := init ℕ ℕ 60 "demo60"

/-- Two back-to-back submissions. -/
def r1 : FCState ℕ ℕ := callStep r0 (.returns (.ok 1)) []

def r2 : FCState ℕ ℕ := callStep r1 (.returns (.ok 2)) []

/-- First dispatch at 2000. -/
def r3 : FCState ℕ ℕ := executeTask r2 2000 2000 2000

/-- Second dispatch at 3000 (3000 - 2000 >= 1000). -/
def r4 : FCState ℕ ℕ := executeTask r3 3000 3000 3000

/-- Demo queue whose first callable throws synchronously. -/
def t0 : FCState ℕ ℕ := init ℕ ℕ 0 "demoThrow"

def t1 : FCState ℕ ℕ := callStep t0 .throws [[("a", "b")]]

def t2 : FCState ℕ ℕ := callStep t1 (.returns (.ok 3)) []

/-- The tick that dispatches the throwing task. -/
def t3 : FCState ℕ ℕ := executeTask t2 5 5 5

/-! ### The reachable-state invariant -/

/-- Invariant of every state reachable from `init E V m nm`.  It ties
together the FIFO discipline, the promise discipline, the counters, the
timer discipline and the dispatch-spacing ghost log. -/
structure Inv (m : ℚ) (nm : String) (s : FCState E V) : Prop where
  maxFlow_eq : s.maxFlow = m
  minInterval_eq : s.minInterval = 60 * 1000 / m
  fifo : s.dispatchLog.map Prod.fst ++ s.taskQueue.map Task.id = List.range s.subs.length
  queue_subs : ∀ t ∈ s.taskQueue, ∃ sub, s.subs.get? t.id = some sub ∧
      sub.behavior = t.behavior ∧ sub.promise = .pending
  run_subs : ∀ r ∈ s.running, ∃ sub, s.subs.get? r.id = some sub ∧
      sub.behavior = .returns r.outcome ∧ sub.promise = .pending
  run_log : ∀ r ∈ s.running, r.id ∈ s.dispatchLog.map Prod.fst
  run_nodup : (s.running.map Running.id).Nodup
  count_eq : s.count = (s.running.length : ℤ)
  timers_eq : s.timers = if s.taskQueue.isEmpty then 0 else 1
  gaps : List.Chain' (fun a b : ℕ × ℤ => s.minInterval ≤ ((b.2 - a.2 : ℤ) : ℚ)) s.dispatchLog
  last_eq : s.lastExecuteTime = ((s.dispatchLog.getLast?).map Prod.snd).getD 0
  log_clock : ∀ p ∈ s.dispatchLog, p.2 ≤ s.clock
  begin_clock : ∀ r ∈ s.running, r.beginTime ≤ s.clock
  throws_pending : ∀ i sub, s.subs.get? i = some sub → sub.behavior = .throws →
      sub.promise = .pending
  exact_resolved : ∀ i sub, s.subs.get? i = some sub → ∀ v, sub.promise = .resolved v →
      sub.behavior = .returns (.ok v)
  exact_rejected : ∀ i sub, s.subs.get? i = some sub → ∀ e, sub.promise = .rejected e →
      sub.behavior = .returns (.error e)
  disp_pending_run : ∀ p ∈ s.dispatchLog, ∀ sub, s.subs.get? p.1 = some sub →
      ∀ o, sub.behavior = .returns o → sub.promise = .pending →
      ∃ r ∈ s.running, r.id = p.1 ∧ r.outcome = o

/-! ### Helper lemmas about `modifyIdx` and lists -/

theorem modifyIdx_length (f : α → α) (i : ℕ) (l : List α) :
    (modifyIdx f i l).length = l.length := by
  induction l generalizing i with
  | nil => cases i <;> rfl
  | cons a as ih =>
    cases i with
    | zero => rfl
    | succ n => simp [modifyIdx, ih]

theorem modifyIdx_get?_self (f : α → α) (i : ℕ) (l : List α) :
    (modifyIdx f i l).get? i = (l.get? i).map f := by
  induction l generalizing i with
  | nil => cases i <;> rfl
  | cons a as ih =>
    cases i with
    | zero => rfl
    | succ n => simpa [modifyIdx] using ih n

theorem modifyIdx_get?_ne (f : α → α) {i j : ℕ} (l : List α) (h : j ≠ i) :
    (modifyIdx f i l).get? j = l.get? j := by
  induction l generalizing i j with
  | nil => cases i <;> rfl
  | cons a as ih =>
    cases i with
    | zero =>
      cases j with
      | zero => exact absurd rfl h
      | succ m => rfl
    | succ n =>
      cases j with
      | zero => rfl
      | succ m =>
        have hmn : m ≠ n := fun hh => h (by rw [hh])
        simpa [modifyIdx] using ih hmn

theorem mem_of_getLast?_eq {l : List α} {a : α} (h : l.getLast? = some a) : a ∈ l := by
  induction l with
  | nil => simp at h
  | cons x xs ih =>
    cases xs with
    | nil =>
      simp only [List.getLast?_singleton, Option.some.injEq] at h
      simp [h]
    | cons y ys =>
      rw [List.getLast?_cons_cons] at h
      exact List.mem_cons_of_mem x (ih h)

theorem eraseIdx_map_ne {f : α → β} :
    ∀ (l : List α) (i : ℕ) (a : α), (l.map f).Nodup → l.get? i = some a →
      ∀ b ∈ l.eraseIdx i, f b ≠ f a := by
  intro l
  induction l with
  | nil => intro i a _ h; simp at h
  | cons x xs ih =>
    intro i a hnd hget b hb
    rw [List.map_cons, List.nodup_cons] at hnd
    cases i with
    | zero =>
      rw [List.get?_cons_zero, Option.some.injEq] at hget
      subst hget
      rw [List.eraseIdx_cons_zero] at hb
      intro he
      exact hnd.1 (he ▸ List.mem_map_of_mem f hb)
    | succ n =>
      rw [List.get?_cons_succ] at hget
      rw [List.eraseIdx_cons_succ] at hb
      rcases List.mem_cons.mp hb with rfl | hb2
      · intro he
        exact hnd.1 (he ▸ List.mem_map_of_mem f (List.get?_mem hget))
      · exact ih n a hnd.2 hget b hb2

theorem mem_eraseIdx_of_ne {a x : α} :
    ∀ (l : List α) (i : ℕ), x ∈ l → l.get? i = some a → x ≠ a → x ∈ l.eraseIdx i := by
  intro l
  induction l with
  | nil => intro i hx; simp at hx
  | cons y ys ih =>
    intro i hx hget hne
    cases i with
    | zero =>
      rw [List.get?_cons_zero, Option.some.injEq] at hget
      subst hget
      rw [List.eraseIdx_cons_zero]
      rcases List.mem_cons.mp hx with rfl | h
      · exact absurd rfl hne
      · exact h
    | succ n =>
      rw [List.get?_cons_succ] at hget
      rw [List.eraseIdx_cons_succ]
      rcases List.mem_cons.mp hx with rfl | h
      · exact List.mem_cons_self x _
      · exact List.mem_cons_of_mem y (ih n h hget hne)

/-! ### Case-analysis lemmas for one tick of the driving loop -/

theorem checkFlow_eq_of_false {mf mi : ℚ} {last now : ℤ}
    (h : (checkFlow mf mi last now).1 = false) :
    checkFlow mf mi last now = (false, last) := by
  unfold checkFlow at h ⊢
  split at h
  · split at h
    · simp_all [checkFlow]
    · simp at h
  · simp at h

/-- A passing gate check means either the rate limit is active and the
required spacing has elapsed, or the rate limit is disabled. -/
theorem checkFlow_true_cases {mf mi : ℚ} {last now : ℤ}
    (h : (checkFlow mf mi last now).1 = true) :
    (0 < mf ∧ mi ≤ ((now - last : ℤ) : ℚ)) ∨ mf ≤ 0 := by
  by_cases hmf : 0 < mf
  · by_cases hlt : ((now - last : ℤ) : ℚ) < mi
    · exfalso
      have hlt' : ((now : ℚ) - (last : ℚ)) < mi := by
        push_cast at hlt
        exact hlt
      simp [checkFlow, hmf, hlt'] at h
    · exact Or.inl ⟨hmf, not_lt.mp hlt⟩
  · exact Or.inr (not_lt.mp hmf)

/-- A tick firing on an empty queue only consumes the fired timer. -/
theorem executeTask_nil (s : FCState E V) (n1 n2 n3 : ℤ) (h : s.taskQueue = []) :
    executeTask s n1 n2 n3 = { s with timers := s.timers - 1 } := by
  simp [executeTask, executeTaskTry, h]

/-- A tick whose gate check fails leaves everything but the clock and the
consumed-plus-rescheduled timer unchanged. -/
theorem executeTask_gateFail (s : FCState E V) (n1 n2 n3 : ℤ) {t : Task E V} {rest}
    (h : s.taskQueue = t :: rest)
    (hcf : (checkFlow s.maxFlow s.minInterval s.lastExecuteTime n1).1 = false) :
    executeTask s n1 n2 n3 = { s with clock := n1, timers := s.timers - 1 + 1 } := by
  have hc := checkFlow_eq_of_false hcf
  simp [executeTask, executeTaskTry, h, hc]

/-- A passing tick dispatching a task whose caller returns an awaitable. -/
theorem executeTask_dispatch_returns (s : FCState E V) (n1 n2 n3 : ℤ) {t : Task E V} {rest}
    {o : Except E V} (h : s.taskQueue = t :: rest) (hb : t.behavior = .returns o)
    (hcf : (checkFlow s.maxFlow s.minInterval s.lastExecuteTime n1).1 = true) :
    executeTask s n1 n2 n3 =
      { s with lastExecuteTime := n2, taskQueue := rest, clock := n3,
               dispatchLog := s.dispatchLog ++ [(t.id, n2)],
               running := s.running ++ [{ id := t.id, beginTime := n3, outcome := o }],
               count := s.count + 1,
               timers := s.timers - 1 + if 0 < rest.length then 1 else 0 } := by
  rcases hc : checkFlow s.maxFlow s.minInterval s.lastExecuteTime n1 with ⟨b, l⟩
  rw [hc] at hcf
  simp only at hcf
  subst hcf
  simp [executeTask, executeTaskTry, h, hc, runTask, hb]

/-- A passing tick dispatching a task whose caller throws synchronously:
the exception is caught by the try/catch and logged. -/
theorem executeTask_dispatch_throws (s : FCState E V) (n1 n2 n3 : ℤ) {t : Task E V} {rest}
    (h : s.taskQueue = t :: rest) (hb : t.behavior = .throws)
    (hcf : (checkFlow s.maxFlow s.minInterval s.lastExecuteTime n1).1 = true) :
    executeTask s n1 n2 n3 =
      { s with lastExecuteTime := n2, taskQueue := rest, clock := n3,
               dispatchLog := s.dispatchLog ++ [(t.id, n2)],
               errorsLogged := s.errorsLogged + 1,
               timers := s.timers - 1 + if 0 < rest.length then 1 else 0 } := by
  rcases hc : checkFlow s.maxFlow s.minInterval s.lastExecuteTime n1 with ⟨b, l⟩
  rw [hc] at hcf
  simp only at hcf
  subst hcf
  simp [executeTask, executeTaskTry, h, hc, runTask, hb]

/-- A tick never touches the submissions (in particular no caller promise
and no argument object changes during dispatch). -/
theorem executeTask_subs (s : FCState E V) (n1 n2 n3 : ℤ) :
    (executeTask s n1 n2 n3).subs = s.subs := by
  cases hq : s.taskQueue with
  | nil => rw [executeTask_nil s n1 n2 n3 hq]
  | cons t rest =>
    cases hcf : (checkFlow s.maxFlow s.minInterval s.lastExecuteTime n1).1 with
    | false => rw [executeTask_gateFail s n1 n2 n3 hq hcf]
    | true =>
      cases hbt : t.behavior with
      | throws => rw [executeTask_dispatch_throws s n1 n2 n3 hq hbt hcf]
      | returns o => rw [executeTask_dispatch_returns s n1 n2 n3 hq hbt hcf]

/-- A tick never touches the completed-task counter. -/
theorem executeTask_total (s : FCState E V) (n1 n2 n3 : ℤ) :
    (executeTask s n1 n2 n3).total = s.total := by
  cases hq : s.taskQueue with
  | nil => rw [executeTask_nil s n1 n2 n3 hq]
  | cons t rest =>
    cases hcf : (checkFlow s.maxFlow s.minInterval s.lastExecuteTime n1).1 with
    | false => rw [executeTask_gateFail s n1 n2 n3 hq hcf]
    | true =>
      cases hbt : t.behavior with
      | throws => rw [executeTask_dispatch_throws s n1 n2 n3 hq hbt hcf]
      | returns o => rw [executeTask_dispatch_returns s n1 n2 n3 hq hbt hcf]

/-- A tick never touches the cumulative-duration counter. -/
theorem executeTask_totalTime (s : FCState E V) (n1 n2 n3 : ℤ) :
    (executeTask s n1 n2 n3).totalTime = s.totalTime := by
  cases hq : s.taskQueue with
  | nil => rw [executeTask_nil s n1 n2 n3 hq]
  | cons t rest =>
    cases hcf : (checkFlow s.maxFlow s.minInterval s.lastExecuteTime n1).1 with
    | false => rw [executeTask_gateFail s n1 n2 n3 hq hcf]
    | true =>
      cases hbt : t.behavior with
      | throws => rw [executeTask_dispatch_throws s n1 n2 n3 hq hbt hcf]
      | returns o => rw [executeTask_dispatch_returns s n1 n2 n3 hq hbt hcf]

/-- A settle event for an index with no running task is a no-op. -/
theorem settleRunning_none (s : FCState E V) {i : ℕ}
    (hri : s.running.get? i = none) (n : ℤ) : settleRunning s i n = s := by
  have hri' : s.running[i]? = none := by
    rw [← List.get?_eq_getElem?]
    exact hri
  simp [settleRunning, hri']

/-- Unfolding of a settle event for an actual running task. -/
theorem settleRunning_some (s : FCState E V) {i : ℕ} {r : Running E V}
    (hri : s.running.get? i = some r) (n : ℤ) :
    settleRunning s i n =
      { s with
        running := s.running.eraseIdx i,
        clock := n,
        count := s.count - 1,
        total := s.total + 1,
        totalTime := s.totalTime + (n - r.beginTime),
        subs := modifyIdx (fun sub => { sub with args := sub.args.map outputArg }) r.id
          (modifyIdx (fun sub => { sub with promise := settleWith r.outcome sub.promise })
            r.id s.subs) } := by
  have hri' : s.running[i]? = some r := by
    rw [← List.get?_eq_getElem?]
    exact hri
  simp [settleRunning, hri']

theorem Inv.queue_id_lt {m : ℚ} {nm : String} {s : FCState E V} (h : Inv m nm s)
    {t : Task E V} (ht : t ∈ s.taskQueue) : t.id < s.subs.length := by
  have hmem : t.id ∈ s.dispatchLog.map Prod.fst ++ s.taskQueue.map Task.id :=
    List.mem_append_right _ (List.mem_map_of_mem Task.id ht)
  rw [h.fifo] at hmem
  exact List.mem_range.mp hmem

theorem Inv.log_id_lt {m : ℚ} {nm : String} {s : FCState E V} (h : Inv m nm s)
    {a : ℕ} (ha : a ∈ s.dispatchLog.map Prod.fst) : a < s.subs.length := by
  have hmem : a ∈ s.dispatchLog.map Prod.fst ++ s.taskQueue.map Task.id :=
    List.mem_append_left _ ha
  rw [h.fifo] at hmem
  exact List.mem_range.mp hmem

theorem Inv.log_queue_disjoint {m : ℚ} {nm : String} {s : FCState E V} (h : Inv m nm s)
    {a : ℕ} (ha : a ∈ s.dispatchLog.map Prod.fst) (hb : a ∈ s.taskQueue.map Task.id) :
    False := by
  have hnd : (s.dispatchLog.map Prod.fst ++ s.taskQueue.map Task.id).Nodup := by
    rw [h.fifo]; exact List.nodup_range _
  exact (List.nodup_append.mp hnd).2.2 ha hb

theorem get?_append_some {l : List α} {a x : α} {i : ℕ}
    (h : (l ++ [a]).get? i = some x) : l.get? i = some x ∨ (i = l.length ∧ x = a) := by
  have hi : i < l.length + 1 := by
    have hlen := (List.get?_eq_some.mp h).1
    simpa using hlen
  rcases Nat.lt_or_ge i l.length with hlt | hge
  · left
    rw [← List.get?_append hlt]
    exact h
  · have heq : i = l.length := Nat.le_antisymm (Nat.lt_succ_iff.mp hi) hge
    subst heq
    rw [List.get?_concat_length] at h
    exact Or.inr ⟨rfl, (Option.some_inj.mp h).symm⟩

theorem inv_init (E V : Type) (m : ℚ) (nm : String) : Inv m nm (init E V m nm) := by
  refine
    { maxFlow_eq := rfl, minInterval_eq := rfl, fifo := rfl,
      queue_subs := ?_, run_subs := ?_, run_log := ?_, run_nodup := ?_,
      count_eq := rfl, timers_eq := rfl, gaps := ?_, last_eq := rfl,
      log_clock := ?_, begin_clock := ?_, throws_pending := ?_,
      exact_resolved := ?_, exact_rejected := ?_, disp_pending_run := ?_ } <;>
    simp [init]

theorem inv_call {m : ℚ} {nm : String} {s : FCState E V} (h : Inv m nm s)
    (b : Behavior E V) (args : List JsObj) : Inv m nm (callStep s b args) := by
  refine
    { maxFlow_eq := h.maxFlow_eq, minInterval_eq := h.minInterval_eq,
      fifo := ?_, queue_subs := ?_, run_subs := ?_, run_log := h.run_log,
      run_nodup := h.run_nodup, count_eq := h.count_eq, timers_eq := ?_,
      gaps := h.gaps, last_eq := h.last_eq, log_clock := h.log_clock,
      begin_clock := h.begin_clock, throws_pending := ?_,
      exact_resolved := ?_, exact_rejected := ?_, disp_pending_run := ?_ }
  · -- fifo
    simp only [callStep, List.map_append, List.length_append]
    rw [← List.append_assoc, h.fifo]
    simp [List.range_succ]
  · -- queue_subs
    intro t ht
    simp only [callStep] at ht ⊢
    rcases List.mem_append.mp ht with hold | hnew
    · obtain ⟨sub, hget, hbeh, hpen⟩ := h.queue_subs t hold
      refine ⟨sub, ?_, hbeh, hpen⟩
      rw [List.get?_append (h.queue_id_lt hold)]
      exact hget
    · rcases List.mem_singleton.mp hnew with rfl
      exact ⟨_, List.get?_concat_length _ _, rfl, rfl⟩
  · -- run_subs
    intro r hr
    simp only [callStep] at hr ⊢
    obtain ⟨sub, hget, hbeh, hpen⟩ := h.run_subs r hr
    have hlt : r.id < s.subs.length := h.log_id_lt (h.run_log r hr)
    refine ⟨sub, ?_, hbeh, hpen⟩
    rw [List.get?_append hlt]
    exact hget
  · -- timers_eq
    simp only [callStep]
    have ht := h.timers_eq
    by_cases hq : s.taskQueue = []
    · simp only [hq, List.isEmpty_nil, if_true] at ht
      simp [hq, ht]
    · have hlen : ¬ s.taskQueue.length ≤ 0 := by
        simpa [Nat.le_zero, List.length_eq_zero] using hq
      rw [if_neg hlen]
      have ht1 : s.timers = 1 := by
        rw [ht, if_neg (by simpa [List.isEmpty_iff] using hq)]
      rw [ht1, if_neg (by simp [List.isEmpty_iff])]
  · -- throws_pending
    intro i sub hget hbeh
    simp only [callStep] at hget
    rcases get?_append_some hget with hold | ⟨_, rfl⟩
    · exact h.throws_pending i sub hold hbeh
    · rfl
  · -- exact_resolved
    intro i sub hget v hres
    simp only [callStep] at hget
    rcases get?_append_some hget with hold | ⟨_, rfl⟩
    · exact h.exact_resolved i sub hold v hres
    · simp at hres
  · -- exact_rejected
    intro i sub hget e hrej
    simp only [callStep] at hget
    rcases get?_append_some hget with hold | ⟨_, rfl⟩
    · exact h.exact_rejected i sub hold e hrej
    · simp at hrej
  · -- disp_pending_run
    intro p hp sub hget o hbeh hpen
    simp only [callStep] at hp hget ⊢
    have hlt : p.1 < s.subs.length := h.log_id_lt (List.mem_map_of_mem Prod.fst hp)
    rw [List.get?_append hlt] at hget
    exact h.disp_pending_run p hp sub hget o hbeh hpen

theorem inv_tick {m : ℚ} {nm : String} {s : FCState E V} (h : Inv m nm s)
    (n1 n2 n3 : ℤ) (htm : 0 < s.timers) (h1 : s.clock ≤ n1) (h2 : n1 ≤ n2) (h3 : n2 ≤ n3) :
    Inv m nm (executeTask s n1 n2 n3) := by
  cases hq : s.taskQueue with
  | nil =>
    exfalso
    have ht0 : s.timers = 0 := by simp [h.timers_eq, hq]
    omega
  | cons t rest =>
    have h13 : s.clock ≤ n3 := le_trans h1 (le_trans h2 h3)
    have hmemt : t ∈ s.taskQueue := by rw [hq]; exact List.mem_cons_self _ _
    have ht1 : s.timers = 1 := by simp [h.timers_eq, hq]
    cases hcf : (checkFlow s.maxFlow s.minInterval s.lastExecuteTime n1).1 with
    | false =>
      rw [executeTask_gateFail s n1 n2 n3 hq hcf]
      refine
        { maxFlow_eq := h.maxFlow_eq, minInterval_eq := h.minInterval_eq,
          fifo := h.fifo, queue_subs := h.queue_subs, run_subs := h.run_subs,
          run_log := h.run_log, run_nodup := h.run_nodup, count_eq := h.count_eq,
          timers_eq := ?_, gaps := h.gaps, last_eq := h.last_eq,
          log_clock := ?_, begin_clock := ?_, throws_pending := h.throws_pending,
          exact_resolved := h.exact_resolved, exact_rejected := h.exact_rejected,
          disp_pending_run := h.disp_pending_run }
      · show s.timers - 1 + 1 = if s.taskQueue.isEmpty then 0 else 1
        simp [ht1, hq]
      · intro p hp
        exact le_trans (h.log_clock p hp) h1
      · intro r hr
        exact le_trans (h.begin_clock r hr) h1
    | true =>
      -- the gate passed: boundary fact for the new dispatch-log entry
      have hgap : ∀ p, s.dispatchLog.getLast? = some p →
          s.minInterval ≤ ((n2 - p.2 : ℤ) : ℚ) := by
        intro p hpl
        have hpmem : p ∈ s.dispatchLog := mem_of_getLast?_eq hpl
        rcases checkFlow_true_cases hcf with ⟨hmf, hge⟩ | hmf
        · have hlast : s.lastExecuteTime = p.2 := by
            rw [h.last_eq, hpl]
            rfl
          rw [hlast] at hge
          have h12 : ((n1 - p.2 : ℤ) : ℚ) ≤ ((n2 - p.2 : ℤ) : ℚ) := by
            exact_mod_cast sub_le_sub_right h2 p.2
          exact le_trans hge h12
        · have hm0 : m ≤ 0 := h.maxFlow_eq ▸ hmf
          have hmi : s.minInterval ≤ 0 := by
            rw [h.minInterval_eq]
            exact div_nonpos_of_nonneg_of_nonpos (by norm_num) hm0
          have hp2 : p.2 ≤ n2 := le_trans (h.log_clock p hpmem) (le_trans h1 h2)
          have h0 : (0 : ℚ) ≤ ((n2 - p.2 : ℤ) : ℚ) := by
            exact_mod_cast sub_nonneg.mpr hp2
          exact le_trans hmi h0
      have hgaps' : List.Chain'
          (fun a b : ℕ × ℤ => s.minInterval ≤ ((b.2 - a.2 : ℤ) : ℚ))
          (s.dispatchLog ++ [(t.id, n2)]) := by
        rw [List.chain'_append]
        refine ⟨h.gaps, List.chain'_singleton _, ?_⟩
        intro p hp y hy
        have hy' : (t.id, n2) = y := by simpa using hy
        subst hy'
        exact hgap p hp
      have hfifo' : (s.dispatchLog ++ [(t.id, n2)]).map Prod.fst ++ rest.map Task.id =
          List.range s.subs.length := by
        have hf := h.fifo
        rw [hq] at hf
        rw [List.map_append, List.append_assoc]
        simpa using hf
      have hlast' : (n2 : ℤ) =
          (((s.dispatchLog ++ [(t.id, n2)]).getLast?).map Prod.snd).getD 0 := by
        rw [List.getLast?_concat]
        rfl
      have hlogck : ∀ p ∈ s.dispatchLog ++ [(t.id, n2)], p.2 ≤ n3 := by
        intro p hp
        rcases List.mem_append.mp hp with hold | hnew
        · exact le_trans (h.log_clock p hold) h13
        · rcases List.mem_singleton.mp hnew with rfl
          exact h3
      have hrunlog : ∀ r ∈ s.running, r.id ∈ (s.dispatchLog ++ [(t.id, n2)]).map Prod.fst := by
        intro r hr
        rw [List.map_append]
        exact List.mem_append_left _ (h.run_log r hr)
      have hqsub : ∃ sub, s.subs.get? t.id = some sub ∧
          sub.behavior = t.behavior ∧ sub.promise = .pending := h.queue_subs t hmemt
      have hqrest : ∀ t2 ∈ rest, ∃ sub, s.subs.get? t2.id = some sub ∧
          sub.behavior = t2.behavior ∧ sub.promise = .pending := by
        intro t2 ht2
        exact h.queue_subs t2 (by rw [hq]; exact List.mem_cons_of_mem t ht2)
      cases hbt : t.behavior with
      | throws =>
        rw [executeTask_dispatch_throws s n1 n2 n3 hq hbt hcf]
        refine
          { maxFlow_eq := h.maxFlow_eq, minInterval_eq := h.minInterval_eq,
            fifo := hfifo', queue_subs := hqrest, run_subs := h.run_subs,
            run_log := hrunlog, run_nodup := h.run_nodup, count_eq := h.count_eq,
            timers_eq := ?_, gaps := hgaps', last_eq := hlast',
            log_clock := hlogck, begin_clock := ?_, throws_pending := h.throws_pending,
            exact_resolved := h.exact_resolved, exact_rejected := h.exact_rejected,
            disp_pending_run := ?_ }
        · show s.timers - 1 + (if 0 < rest.length then 1 else 0) =
            if rest.isEmpty then 0 else 1
          cases rest with
          | nil => simp [ht1]
          | cons a as => simp [ht1]
        · intro r hr
          exact le_trans (h.begin_clock r hr) h13
        · intro p hp sub hget o hbeh hpen
          rcases List.mem_append.mp hp with hold | hnew
          · exact h.disp_pending_run p hold sub hget o hbeh hpen
          · rcases List.mem_singleton.mp hnew with rfl
            obtain ⟨sub0, hget0, hbeh0, hpen0⟩ := hqsub
            have hsub : sub0 = sub := by
              rw [hget0] at hget
              exact Option.some_inj.mp hget
            rw [← hsub, hbeh0, hbt] at hbeh
            simp at hbeh
      | returns o0 =>
        rw [executeTask_dispatch_returns s n1 n2 n3 hq hbt hcf]
        refine
          { maxFlow_eq := h.maxFlow_eq, minInterval_eq := h.minInterval_eq,
            fifo := hfifo', queue_subs := hqrest, run_subs := ?_,
            run_log := ?_, run_nodup := ?_, count_eq := ?_,
            timers_eq := ?_, gaps := hgaps', last_eq := hlast',
            log_clock := hlogck, begin_clock := ?_, throws_pending := h.throws_pending,
            exact_resolved := h.exact_resolved, exact_rejected := h.exact_rejected,
            disp_pending_run := ?_ }
        · -- run_subs
          intro r hr
          rcases List.mem_append.mp hr with hold | hnew
          · exact h.run_subs r hold
          · rcases List.mem_singleton.mp hnew with rfl
            obtain ⟨sub0, hget0, hbeh0, hpen0⟩ := hqsub
            exact ⟨sub0, hget0, by rw [hbeh0, hbt], hpen0⟩
        · -- run_log
          intro r hr
          rcases List.mem_append.mp hr with hold | hnew
          · exact hrunlog r hold
          · rcases List.mem_singleton.mp hnew with rfl
            rw [List.map_append]
            exact List.mem_append_right _ (by simp)
        · -- run_nodup
          rw [List.map_append]
          refine List.nodup_append.mpr ⟨h.run_nodup, List.nodup_singleton _, ?_⟩
          intro a ha hb
          have hb' : a = t.id := by simpa using hb
          subst hb'
          rcases List.mem_map.mp ha with ⟨r, hr, hrid⟩
          have hlog : t.id ∈ s.dispatchLog.map Prod.fst := hrid ▸ h.run_log r hr
          have hqm : t.id ∈ s.taskQueue.map Task.id := by simp [hq]
          exact h.log_queue_disjoint hlog hqm
        · -- count_eq
          show s.count + 1 =
            ((s.running ++
              [({ id := t.id, beginTime := n3, outcome := o0 } : Running E V)]).length : ℤ)
          rw [h.count_eq, List.length_append, List.length_singleton]
          push_cast
          ring
        · -- timers_eq
          show s.timers - 1 + (if 0 < rest.length then 1 else 0) =
            if rest.isEmpty then 0 else 1
          cases rest with
          | nil => simp [ht1]
          | cons a as => simp [ht1]
        · -- begin_clock
          intro r hr
          rcases List.mem_append.mp hr with hold | hnew
          · exact le_trans (h.begin_clock r hold) h13
          · rcases List.mem_singleton.mp hnew with rfl
            exact le_refl n3
        · -- disp_pending_run
          intro p hp sub hget o hbeh hpen
          rcases List.mem_append.mp hp with hold | hnew
          · obtain ⟨r, hr, hrid, hro⟩ := h.disp_pending_run p hold sub hget o hbeh hpen
            exact ⟨r, List.mem_append_left _ hr, hrid, hro⟩
          · rcases List.mem_singleton.mp hnew with rfl
            obtain ⟨sub0, hget0, hbeh0, hpen0⟩ := hqsub
            have hsub : sub0 = sub := by
              rw [hget0] at hget
              exact Option.some_inj.mp hget
            rw [← hsub, hbeh0, hbt] at hbeh
            injection hbeh with ho
            refine ⟨({ id := t.id, beginTime := n3, outcome := o0 } : Running E V),
              List.mem_append_right _ (by simp), rfl, ho⟩

theorem inv_settle {m : ℚ} {nm : String} {s : FCState E V} (h : Inv m nm s) (i : ℕ) (n : ℤ)
    (hn : s.clock ≤ n) : Inv m nm (settleRunning s i n) := by
  cases hri : s.running.get? i with
  | none =>
    have hri' : s.running[i]? = none := by
      rw [← List.get?_eq_getElem?]
      exact hri
    have hEq : settleRunning s i n = s := by simp [settleRunning, hri']
    rw [hEq]
    exact h
  | some r =>
    have hri' : s.running[i]? = some r := by
      rw [← List.get?_eq_getElem?]
      exact hri
    have hrmem : r ∈ s.running := List.get?_mem hri
    obtain ⟨sub0, hget0, hbeh0, hpen0⟩ := h.run_subs r hrmem
    have hrlog : r.id ∈ s.dispatchLog.map Prod.fst := h.run_log r hrmem
    have hilt : i < s.running.length := (List.get?_eq_some.mp hri).1
    have hEq : settleRunning s i n =
      { s with
        running := s.running.eraseIdx i,
        clock := n,
        count := s.count - 1,
        total := s.total + 1,
        totalTime := s.totalTime + (n - r.beginTime),
        subs := modifyIdx (fun sub => { sub with args := sub.args.map outputArg }) r.id
          (modifyIdx (fun sub => { sub with promise := settleWith r.outcome sub.promise })
            r.id s.subs) } := by
      simp [settleRunning, hri']
    have hgetne : ∀ j, j ≠ r.id →
        (modifyIdx (fun sub => { sub with args := sub.args.map outputArg }) r.id
          (modifyIdx (fun sub => { sub with promise := settleWith r.outcome sub.promise })
            r.id s.subs)).get? j = s.subs.get? j := by
      intro j hj
      rw [modifyIdx_get?_ne _ _ hj, modifyIdx_get?_ne _ _ hj]
    have hgeteq :
        (modifyIdx (fun sub => { sub with args := sub.args.map outputArg }) r.id
          (modifyIdx (fun sub => { sub with promise := settleWith r.outcome sub.promise })
            r.id s.subs)).get? r.id =
        some { behavior := sub0.behavior, args := sub0.args.map outputArg,
               promise := settleWith r.outcome sub0.promise } := by
      rw [modifyIdx_get?_self, modifyIdx_get?_self, hget0]
      rfl
    have hlen :
        (modifyIdx (fun sub => { sub with args := sub.args.map outputArg }) r.id
          (modifyIdx (fun sub => { sub with promise := settleWith r.outcome sub.promise })
            r.id s.subs)).length = s.subs.length := by
      rw [modifyIdx_length, modifyIdx_length]
    have hermem : ∀ r2 ∈ s.running.eraseIdx i, r2 ∈ s.running := by
      intro r2 hr2
      exact List.Sublist.mem hr2 (List.eraseIdx_sublist s.running i)
    have herne : ∀ r2 ∈ s.running.eraseIdx i, r2.id ≠ r.id := by
      intro r2 hr2
      exact eraseIdx_map_ne s.running i r h.run_nodup hri r2 hr2
    rw [hEq]
    refine
      { maxFlow_eq := h.maxFlow_eq, minInterval_eq := h.minInterval_eq,
        fifo := ?_, queue_subs := ?_, run_subs := ?_, run_log := ?_, run_nodup := ?_,
        count_eq := ?_, timers_eq := h.timers_eq, gaps := h.gaps, last_eq := h.last_eq,
        log_clock := ?_, begin_clock := ?_, throws_pending := ?_,
        exact_resolved := ?_, exact_rejected := ?_, disp_pending_run := ?_ }
    · -- fifo
      rw [hlen]
      exact h.fifo
    · -- queue_subs
      intro t ht2
      have hne : t.id ≠ r.id := by
        intro he
        exact h.log_queue_disjoint (he.symm ▸ hrlog) (List.mem_map_of_mem Task.id ht2)
      obtain ⟨sub, hget, hb, hp⟩ := h.queue_subs t ht2
      refine ⟨sub, ?_, hb, hp⟩
      rw [hgetne t.id hne]
      exact hget
    · -- run_subs
      intro r2 hr2
      obtain ⟨sub, hget, hb, hp⟩ := h.run_subs r2 (hermem r2 hr2)
      refine ⟨sub, ?_, hb, hp⟩
      rw [hgetne r2.id (herne r2 hr2)]
      exact hget
    · -- run_log
      intro r2 hr2
      exact h.run_log r2 (hermem r2 hr2)
    · -- run_nodup
      exact List.Nodup.sublist
        (List.Sublist.map Running.id (List.eraseIdx_sublist s.running i)) h.run_nodup
    · -- count_eq
      show s.count - 1 = ((s.running.eraseIdx i).length : ℤ)
      rw [h.count_eq, List.length_eraseIdx, if_pos hilt]
      omega
    · -- log_clock
      intro p hp
      exact le_trans (h.log_clock p hp) hn
    · -- begin_clock
      intro r2 hr2
      exact le_trans (h.begin_clock r2 (hermem r2 hr2)) hn
    · -- throws_pending
      intro j sub hget hbeh
      by_cases hj : j = r.id
      · subst hj
        rw [hgeteq] at hget
        injection hget with hsub
        subst hsub
        have hb2 : sub0.behavior = Behavior.throws := hbeh
        rw [hbeh0] at hb2
        simp at hb2
      · rw [hgetne j hj] at hget
        exact h.throws_pending j sub hget hbeh
    · -- exact_resolved
      intro j sub hget v hres
      by_cases hj : j = r.id
      · subst hj
        rw [hgeteq] at hget
        injection hget with hsub
        subst hsub
        have hp2 : settleWith r.outcome PromiseState.pending = PromiseState.resolved v := by
          rw [← hpen0]
          exact hres
        show sub0.behavior = Behavior.returns (Except.ok v)
        rw [hbeh0]
        cases ho : r.outcome with
        | ok v0 =>
          rw [ho] at hp2
          simp [settleWith] at hp2
          rw [hp2]
        | error e0 =>
          rw [ho] at hp2
          simp [settleWith] at hp2
      · rw [hgetne j hj] at hget
        exact h.exact_resolved j sub hget v hres
    · -- exact_rejected
      intro j sub hget e hrej
      by_cases hj : j = r.id
      · subst hj
        rw [hgeteq] at hget
        injection hget with hsub
        subst hsub
        have hp2 : settleWith r.outcome PromiseState.pending = PromiseState.rejected e := by
          rw [← hpen0]
          exact hrej
        show sub0.behavior = Behavior.returns (Except.error e)
        rw [hbeh0]
        cases ho : r.outcome with
        | ok v0 =>
          rw [ho] at hp2
          simp [settleWith] at hp2
        | error e0 =>
          rw [ho] at hp2
          simp [settleWith] at hp2
          rw [hp2]
      · rw [hgetne j hj] at hget
        exact h.exact_rejected j sub hget e hrej
    · -- disp_pending_run
      intro p hp sub hget o hbeh hpen
      by_cases hj : p.1 = r.id
      · rw [hj, hgeteq] at hget
        injection hget with hsub
        subst hsub
        have hp2 : settleWith r.outcome PromiseState.pending = PromiseState.pending := by
          conv_lhs => rw [← hpen0]
          exact hpen
        cases ho : r.outcome with
        | ok v0 =>
          rw [ho] at hp2
          simp [settleWith] at hp2
        | error e0 =>
          rw [ho] at hp2
          simp [settleWith] at hp2
      · rw [hgetne p.1 hj] at hget
        obtain ⟨r2, hr2, hrid, hro⟩ := h.disp_pending_run p hp sub hget o hbeh hpen
        have hner : r2 ≠ r := by
          intro he
          exact hj (by rw [← hrid, he])
        exact ⟨r2, mem_eraseIdx_of_ne s.running i hr2 hri hner, hrid, hro⟩

/-- The invariant holds in every reachable state. -/
theorem inv_reachable {m : ℚ} {nm : String} {s : FCState E V}
    (hr : Reachable m nm s) : Inv m nm s := by
  induction hr with
  | init => exact inv_init E V m nm
  | step hr st ih =>
    cases st with
    | call b args => exact inv_call ih b args
    | tick n1 n2 n3 htm h1 h2 h3 => exact inv_tick ih n1 n2 n3 htm h1 h2 h3
    | settle i n hi hn => exact inv_settle ih i n hn

/-! ### Reachability of the concrete executions -/

theorem s1_reach : Reachable 0 "demo" s1 :=
  Reachable.step Reachable.init (Step.call s0 (.returns (.ok 7)) demoArgs)

theorem s2_reach : Reachable 0 "demo" s2 :=
  Reachable.step s1_reach
    (Step.tick s1 10 10 10 (by decide) (by decide) (by decide) (by decide))

theorem s3_reach : Reachable 0 "demo" s3 :=
  Reachable.step s2_reach (Step.settle s2 0 15 (by decide) (by decide))

theorem r2_reach : Reachable 60 "demo60" r2 :=
  Reachable.step (Reachable.step Reachable.init (Step.call r0 (.returns (.ok 1)) []))
    (Step.call r1 (.returns (.ok 2)) [])

theorem r3_reach : Reachable 60 "demo60" r3 :=
  Reachable.step r2_reach
    (Step.tick r2 2000 2000 2000 (by decide) (by decide) (by decide) (by decide))

/-- The gate check of the first rate-limited tick passes (2000 - 0 >= 1000).
Stated against the unevaluated rational fields of `r2`. -/
theorem r2_checkFlow : (checkFlow r2.maxFlow r2.minInterval r2.lastExecuteTime 2000).1 = true := by
  show (checkFlow 60 (60 * 1000 / 60) 0 2000).1 = true
  norm_num [checkFlow]

/-- Closed form of the state after the first rate-limited dispatch (rational
division does not reduce in the kernel, so this is proved through the
dispatch lemma rather than by evaluation). -/
theorem r3_eq : r3 =
    { r2 with
      lastExecuteTime := 2000,
      taskQueue := [{ id := 1, behavior := .returns (.ok 2) }],
      clock := 2000,
      dispatchLog := [(0, 2000)],
      running := [{ id := 0, beginTime := 2000, outcome := Except.ok 1 }],
      count := 1,
      timers := 1 } := by
  have h := @executeTask_dispatch_returns ℕ ℕ r2 2000 2000 2000
    { id := 0, behavior := .returns (.ok 1) }
    [{ id := 1, behavior := .returns (.ok 2) }] (Except.ok 1)
    rfl rfl r2_checkFlow
  show executeTask r2 2000 2000 2000 = _
  rw [h]
  rfl

theorem r4_reach : Reachable 60 "demo60" r4 :=
  Reachable.step r3_reach
    (Step.tick r3 3000 3000 3000
      (by rw [r3_eq]; decide) (by rw [r3_eq]; decide) (by decide) (by decide))

theorem t2_reach : Reachable 0 "demoThrow" t2 :=
  Reachable.step (Reachable.step Reachable.init (Step.call t0 .throws [[("a", "b")]]))
    (Step.call t1 (.returns (.ok 3)) [])

theorem t3_reach : Reachable 0 "demoThrow" t3 :=
  Reachable.step t2_reach
    (Step.tick t2 5 5 5 (by decide) (by decide) (by decide) (by decide))

/-! ### The claims -/

/-- C1: for a queue constructed with maxPerMinute M > 0, any two consecutive
dispatches recorded in the dispatch log are at least 60000/M milliseconds
apart, and the gate check never passes while now - lastDispatchTime is below
minInterval. -/
theorem dispatch_spacing {E V : Type} (M : ℚ) (nm : String) (s : FCState E V)
    (hr : Reachable M nm s) (hM : 0 < M) :
    List.Chain' (fun a b : ℕ × ℤ => 60 * 1000 / M ≤ ((b.2 - a.2 : ℤ) : ℚ))
      s.dispatchLog ∧
    ∀ last now : ℤ, ((now - last : ℤ) : ℚ) < 60 * 1000 / M →
      (checkFlow M (60 * 1000 / M) last now).1 = false := by
  have h := inv_reachable hr
  constructor
  · have hg := h.gaps
    rw [h.minInterval_eq] at hg
    exact hg
  · intro last now hlt
    have hlt' : ((now : ℚ) - (last : ℚ)) < 60 * 1000 / M := by
      push_cast at hlt
      exact hlt
    simp [checkFlow, hM, hlt']

/-- C1 witness: in the concrete run with maxPerMinute 60, the two recorded
dispatches are at least 1000 ms apart. -/
theorem dispatch_spacing_witness :
    List.Chain' (fun a b : ℕ × ℤ => 60 * 1000 / 60 ≤ ((b.2 - a.2 : ℤ) : ℚ))
      r4.dispatchLog :=
  (dispatch_spacing 60 "demo60" r4 r4_reach (by norm_num)).1

/-- C2: the promise returned by call settles at most once (a settled promise
is never changed by any step), only with exactly the outcome the callable
produced (a resolved/rejected promise always matches the callable outcome),
and the settlement event of a dispatched task delivers exactly that
outcome. -/
theorem promise_settles_exactly {E V : Type} (m : ℚ) (nm : String) (s : FCState E V)
    (hr : Reachable m nm s) :
    (∀ i sub, s.subs.get? i = some sub →
      (∀ v, sub.promise = .resolved v → sub.behavior = .returns (.ok v)) ∧
      (∀ e, sub.promise = .rejected e → sub.behavior = .returns (.error e))) ∧
    (∀ ev s', Step s ev s' → ∀ i sub, s.subs.get? i = some sub →
      sub.promise ≠ .pending →
      ∃ sub', s'.subs.get? i = some sub' ∧ sub'.promise = sub.promise) ∧
    (∀ i (r : Running E V) n, s.running.get? i = some r →
      ∃ sub', (settleRunning s i n).subs.get? r.id = some sub' ∧
        (∀ v, r.outcome = .ok v → sub'.promise = .resolved v) ∧
        (∀ e, r.outcome = .error e → sub'.promise = .rejected e)) := by
  have h := inv_reachable hr
  refine ⟨?_, ?_, ?_⟩
  · intro i sub hget
    exact ⟨fun v hv => h.exact_resolved i sub hget v hv,
           fun e he => h.exact_rejected i sub hget e he⟩
  · intro ev s' st i sub hget hne
    cases st with
    | call b args =>
      refine ⟨sub, ?_, rfl⟩
      show (callStep s b args).subs.get? i = some sub
      simp only [callStep]
      obtain ⟨hlt, -⟩ := List.get?_eq_some.mp hget
      rw [List.get?_append hlt]
      exact hget
    | tick n1 n2 n3 htm h1 h2 h3 =>
      refine ⟨sub, ?_, rfl⟩
      rw [executeTask_subs]
      exact hget
    | settle j n hj hn =>
      cases hrj : s.running.get? j with
      | none =>
        rw [settleRunning_none s hrj n]
        exact ⟨sub, hget, rfl⟩
      | some r =>
        rw [settleRunning_some s hrj n]
        by_cases hij : i = r.id
        · subst hij
          obtain ⟨sub0, hget0, hbeh0, hpen0⟩ := h.run_subs r (List.get?_mem hrj)
          rw [hget0] at hget
          injection hget with hsub
          subst hsub
          exact absurd hpen0 hne
        · refine ⟨sub, ?_, rfl⟩
          rw [modifyIdx_get?_ne _ _ hij, modifyIdx_get?_ne _ _ hij]
          exact hget
  · intro i r n hri
    obtain ⟨sub0, hget0, hbeh0, hpen0⟩ := h.run_subs r (List.get?_mem hri)
    rw [settleRunning_some s hri n]
    refine ⟨{ behavior := sub0.behavior, args := sub0.args.map outputArg,
              promise := settleWith r.outcome sub0.promise }, ?_, ?_, ?_⟩
    · rw [modifyIdx_get?_self, modifyIdx_get?_self, hget0]
      rfl
    · intro v hv
      show settleWith r.outcome sub0.promise = PromiseState.resolved v
      rw [hpen0, hv]
      rfl
    · intro e he
      show settleWith r.outcome sub0.promise = PromiseState.rejected e
      rw [hpen0, he]
      rfl

/-- C2 witness: settling the dispatched demo task (outcome ok 7) resolves
its promise with exactly 7. -/
theorem promise_settles_exactly_witness :
    ∃ sub', (settleRunning s2 0 15).subs.get?
        ({ id := 0, beginTime := 10, outcome := Except.ok 7 } : Running ℕ ℕ).id =
        some sub' ∧
      (∀ v, (Except.ok 7 : Except ℕ ℕ) = .ok v → sub'.promise = .resolved v) ∧
      (∀ e, (Except.ok 7 : Except ℕ ℕ) = .error e → sub'.promise = .rejected e) :=
  (promise_settles_exactly 0 "demo" s2 s2_reach).2.2 0
    { id := 0, beginTime := 10, outcome := Except.ok 7 } 15 (by decide)

/-- C3: the ids in the dispatch log are exactly 0, 1, 2, ... in order:
tasks are dispatched in submission order (FIFO), and the not-yet-dispatched
ids sit in the queue in submission order after them. -/
theorem dispatch_fifo {E V : Type} (m : ℚ) (nm : String) (s : FCState E V)
    (hr : Reachable m nm s) :
    s.dispatchLog.map Prod.fst = List.range s.dispatchLog.length ∧
    s.dispatchLog.map Prod.fst ++ s.taskQueue.map Task.id =
      List.range s.subs.length := by
  have h := inv_reachable hr
  refine ⟨?_, h.fifo⟩
  have hf := h.fifo
  have hlen : s.dispatchLog.length ≤ s.subs.length := by
    have hl := congrArg List.length hf
    simp [List.length_append] at hl
    omega
  have htake := congrArg (List.take (s.dispatchLog.map Prod.fst).length) hf
  rw [List.take_left] at htake
  rw [htake, List.take_range]
  simp [min_eq_left hlen]

/-- C3 witness: in the concrete two-submission run both tasks were
dispatched in submission order. -/
theorem dispatch_fifo_witness :
    r4.dispatchLog.map Prod.fst = List.range r4.dispatchLog.length :=
  (dispatch_fifo 60 "demo60" r4 r4_reach).1

/-- C4: the in-flight counter is never negative, always equals the number of
dispatched-but-unsettled tasks (hence 0 once all have settled), is
incremented by exactly one at each dispatch of a callable that returns an
awaitable, decremented by exactly one at each settlement, and untouched by
submission. -/
theorem inFlight_counter {E V : Type} (m : ℚ) (nm : String) (s : FCState E V)
    (hr : Reachable m nm s) :
    0 ≤ s.count ∧
    s.count = (s.running.length : ℤ) ∧
    (s.running = [] → s.count = 0) ∧
    (∀ (t : Task E V) rest (o : Except E V) (n1 n2 n3 : ℤ),
      s.taskQueue = t :: rest → t.behavior = .returns o →
      (checkFlow s.maxFlow s.minInterval s.lastExecuteTime n1).1 = true →
      (executeTask s n1 n2 n3).count = s.count + 1) ∧
    (∀ i (r : Running E V) n, s.running.get? i = some r →
      (settleRunning s i n).count = s.count - 1) ∧
    (∀ (b : Behavior E V) args, (callStep s b args).count = s.count) := by
  have h := inv_reachable hr
  refine ⟨?_, h.count_eq, ?_, ?_, ?_, ?_⟩
  · rw [h.count_eq]
    exact Int.natCast_nonneg _
  · intro hemp
    rw [h.count_eq, hemp]
    rfl
  · intro t rest o n1 n2 n3 hq hbt hcf
    rw [executeTask_dispatch_returns s n1 n2 n3 hq hbt hcf]
  · intro i r n hri
    rw [settleRunning_some s hri n]
  · intro b args
    rfl

/-- C4 witness: in the demo state with one task in flight the counter is
non-negative and equals the running-task count. -/
theorem inFlight_counter_witness :
    0 ≤ s2.count ∧ s2.count = (s2.running.length : ℤ) :=
  ⟨(inFlight_counter 0 "demo" s2 s2_reach).1,
   (inFlight_counter 0 "demo" s2 s2_reach).2.1⟩

/-- C5: a synchronous exception thrown while dispatching one tick (modelled
by a callable that throws when invoked) is caught inside the driving loop
and logged at error level, no caller promise or submission is touched by
that tick, the head task is consumed, and the loop reschedules itself when
tasks remain. -/
theorem loop_defect_swallowed {E V : Type} (s : FCState E V) (t : Task E V)
    (rest : List (Task E V)) (n1 n2 n3 : ℤ)
    (hq : s.taskQueue = t :: rest) (hb : t.behavior = .throws)
    (hcf : (checkFlow s.maxFlow s.minInterval s.lastExecuteTime n1).1 = true) :
    (executeTask s n1 n2 n3).errorsLogged = s.errorsLogged + 1 ∧
    (executeTask s n1 n2 n3).subs = s.subs ∧
    (executeTask s n1 n2 n3).taskQueue = rest ∧
    (rest ≠ [] → 0 < (executeTask s n1 n2 n3).timers) := by
  rw [executeTask_dispatch_throws s n1 n2 n3 hq hb hcf]
  refine ⟨rfl, rfl, rfl, ?_⟩
  intro hne
  cases rest with
  | nil => exact absurd rfl hne
  | cons a as =>
    show 0 < s.timers - 1 + if 0 < (a :: as).length then 1 else 0
    rw [if_pos (by simp)]
    omega

/-- C5 witness: dispatching the throwing demo task logs one error, touches
no submission, consumes the head task and keeps the loop scheduled. -/
theorem loop_defect_swallowed_witness :
    (executeTask t2 5 5 5).errorsLogged = t2.errorsLogged + 1 ∧
    (executeTask t2 5 5 5).subs = t2.subs ∧
    (executeTask t2 5 5 5).taskQueue =
      [{ id := 1, behavior := Behavior.returns (Except.ok 3) }] ∧
    ([({ id := 1, behavior := Behavior.returns (Except.ok 3) } : Task ℕ ℕ)] ≠ [] →
      0 < (executeTask t2 5 5 5).timers) :=
  loop_defect_swallowed t2 { id := 0, behavior := .throws }
    [{ id := 1, behavior := .returns (.ok 3) }] 5 5 5 rfl rfl (by decide)

/-- C7: with maxPerMinute <= 0 (zero or negative) the gate check returns
true on every evaluation without changing the last-dispatch timestamp, so
every tick whose queue is non-empty dispatches its head task. -/
theorem unlimited_gate {E V : Type} (s : FCState E V) (hm : s.maxFlow ≤ 0) :
    (∀ now : ℤ, checkFlow s.maxFlow s.minInterval s.lastExecuteTime now =
      (true, s.lastExecuteTime)) ∧
    (∀ (t : Task E V) rest (n1 n2 n3 : ℤ), s.taskQueue = t :: rest →
      (executeTask s n1 n2 n3).dispatchLog = s.dispatchLog ++ [(t.id, n2)]) := by
  have hng : ¬ 0 < s.maxFlow := not_lt.mpr hm
  constructor
  · intro now
    simp [checkFlow, hng]
  · intro t rest n1 n2 n3 hq
    have hcf : (checkFlow s.maxFlow s.minInterval s.lastExecuteTime n1).1 = true := by
      simp [checkFlow, hng]
    cases hbt : t.behavior with
    | throws => rw [executeTask_dispatch_throws s n1 n2 n3 hq hbt hcf]
    | returns o => rw [executeTask_dispatch_returns s n1 n2 n3 hq hbt hcf]

/-- C7 witness: in the maxPerMinute 0 demo the first tick dispatches
immediately. -/
theorem unlimited_gate_witness :
    (executeTask s1 10 10 10).dispatchLog = s1.dispatchLog ++ [(0, 10)] :=
  (unlimited_gate s1 (by decide)).2
    { id := 0, behavior := .returns (.ok 7) } [] 10 10 10 rfl

/-- C8: in every reachable state exactly one loop callback is scheduled
when the queue is non-empty and none when it is empty; submit schedules one
exactly when the queue was empty; a tick leaves the loop scheduled iff the
queue is still non-empty afterwards. -/
theorem loop_scheduling {E V : Type} (m : ℚ) (nm : String) (s : FCState E V)
    (hr : Reachable m nm s) :
    s.timers = (if s.taskQueue.isEmpty then 0 else 1) ∧
    (∀ (b : Behavior E V) args, s.taskQueue = [] →
      (callStep s b args).timers = s.timers + 1) ∧
    (∀ (b : Behavior E V) args, s.taskQueue ≠ [] →
      (callStep s b args).timers = s.timers) ∧
    (∀ n1 n2 n3 : ℤ, (executeTask s n1 n2 n3).taskQueue ≠ [] →
      0 < (executeTask s n1 n2 n3).timers) ∧
    (∀ n1 n2 n3 : ℤ, 0 < s.timers → (executeTask s n1 n2 n3).taskQueue = [] →
      (executeTask s n1 n2 n3).timers = 0) := by
  have h := inv_reachable hr
  refine ⟨h.timers_eq, ?_, ?_, ?_, ?_⟩
  · intro b args hq
    simp [callStep, hq]
  · intro b args hq
    have hlen : ¬ s.taskQueue.length ≤ 0 := by
      simpa [Nat.le_zero, List.length_eq_zero] using hq
    simp [callStep, hlen]
  · intro n1 n2 n3 hne
    cases hq : s.taskQueue with
    | nil =>
      exfalso
      apply hne
      rw [executeTask_nil s n1 n2 n3 hq]
      exact hq
    | cons t rest =>
      cases hcf : (checkFlow s.maxFlow s.minInterval s.lastExecuteTime n1).1 with
      | false =>
        rw [executeTask_gateFail s n1 n2 n3 hq hcf]
        show 0 < s.timers - 1 + 1
        omega
      | true =>
        cases hbt : t.behavior with
        | throws =>
          rw [executeTask_dispatch_throws s n1 n2 n3 hq hbt hcf] at hne ⊢
          cases rest with
          | nil => exact absurd rfl hne
          | cons a as =>
            show 0 < s.timers - 1 + if 0 < (a :: as).length then 1 else 0
            rw [if_pos (by simp)]
            omega
        | returns o =>
          rw [executeTask_dispatch_returns s n1 n2 n3 hq hbt hcf] at hne ⊢
          cases rest with
          | nil => exact absurd rfl hne
          | cons a as =>
            show 0 < s.timers - 1 + if 0 < (a :: as).length then 1 else 0
            rw [if_pos (by simp)]
            omega
  · intro n1 n2 n3 htm hq'
    cases hq : s.taskQueue with
    | nil =>
      have ht0 : s.timers = 0 := by simp [h.timers_eq, hq]
      omega
    | cons t rest =>
      have ht1 : s.timers = 1 := by simp [h.timers_eq, hq]
      cases hcf : (checkFlow s.maxFlow s.minInterval s.lastExecuteTime n1).1 with
      | false =>
        rw [executeTask_gateFail s n1 n2 n3 hq hcf] at hq'
        have hq2 : s.taskQueue = [] := hq'
        rw [hq] at hq2
        cases hq2
      | true =>
        cases hbt : t.behavior with
        | throws =>
          rw [executeTask_dispatch_throws s n1 n2 n3 hq hbt hcf] at hq' ⊢
          have hrest : rest = [] := hq'
          show s.timers - 1 + (if 0 < rest.length then 1 else 0) = 0
          rw [hrest]
          simp [ht1]
        | returns o =>
          rw [executeTask_dispatch_returns s n1 n2 n3 hq hbt hcf] at hq' ⊢
          have hrest : rest = [] := hq'
          show s.timers - 1 + (if 0 < rest.length then 1 else 0) = 0
          rw [hrest]
          simp [ht1]

/-- C8 witness: with one task still queued in the demo state, exactly one
loop callback is scheduled. -/
theorem loop_scheduling_witness :
    t2.timers = (if t2.taskQueue.isEmpty then 0 else 1) :=
  (loop_scheduling 0 "demoThrow" t2 t2_reach).1

/-- C9: a settlement performs exactly count -= 1, total += 1 and
totalTime += (settlement time - dispatch begin time), the added duration is
non-negative, and total and totalTime are non-decreasing along every
step. -/
theorem settlement_statistics {E V : Type} (m : ℚ) (nm : String) (s : FCState E V)
    (hr : Reachable m nm s) :
    (∀ i (r : Running E V) n, s.running.get? i = some r → s.clock ≤ n →
      (settleRunning s i n).count = s.count - 1 ∧
      (settleRunning s i n).total = s.total + 1 ∧
      (settleRunning s i n).totalTime = s.totalTime + (n - r.beginTime) ∧
      0 ≤ n - r.beginTime) ∧
    (∀ ev s', Step s ev s' → s.total ≤ s'.total ∧ s.totalTime ≤ s'.totalTime) := by
  have h := inv_reachable hr
  constructor
  · intro i r n hri hn
    have hbg : r.beginTime ≤ s.clock := h.begin_clock r (List.get?_mem hri)
    rw [settleRunning_some s hri n]
    refine ⟨rfl, rfl, rfl, ?_⟩
    omega
  · intro ev s' st
    cases st with
    | call b args => exact ⟨le_refl _, le_refl _⟩
    | tick n1 n2 n3 htm h1 h2 h3 =>
      rw [executeTask_total, executeTask_totalTime]
      exact ⟨le_refl _, le_refl _⟩
    | settle i n hi hn =>
      cases hri : s.running.get? i with
      | none =>
        rw [settleRunning_none s hri n]
        exact ⟨le_refl _, le_refl _⟩
      | some r =>
        have hbg : r.beginTime ≤ s.clock := h.begin_clock r (List.get?_mem hri)
        rw [settleRunning_some s hri n]
        constructor
        · show s.total ≤ s.total + 1
          omega
        · show s.totalTime ≤ s.totalTime + (n - r.beginTime)
          omega

/-- C9 witness: settling the demo task at time 15 (dispatched at 10)
updates the three counters exactly and adds the non-negative duration 5. -/
theorem settlement_statistics_witness :
    (settleRunning s2 0 15).count = s2.count - 1 ∧
    (settleRunning s2 0 15).total = s2.total + 1 ∧
    (settleRunning s2 0 15).totalTime = s2.totalTime + (15 - 10) ∧
    (0 : ℤ) ≤ 15 - 10 :=
  (settlement_statistics 0 "demo" s2 s2_reach).1 0
    { id := 0, beginTime := 10, outcome := Except.ok 7 } 15 (by decide) (by decide)

/-- C10: a callable that throws synchronously when invoked: the promise of
every throwing submission is pending in every reachable state (it never
settles), and the dispatching tick leaves the in-flight counter, the
completion counters and the running set untouched while logging one error
and keeping the loop scheduled when tasks remain. -/
theorem throwing_caller {E V : Type} (m : ℚ) (nm : String) (s : FCState E V)
    (hr : Reachable m nm s) (t : Task E V) (rest : List (Task E V)) (n1 n2 n3 : ℤ)
    (hq : s.taskQueue = t :: rest) (hb : t.behavior = .throws)
    (hcf : (checkFlow s.maxFlow s.minInterval s.lastExecuteTime n1).1 = true) :
    (∀ i sub, s.subs.get? i = some sub → sub.behavior = .throws →
      sub.promise = .pending) ∧
    (executeTask s n1 n2 n3).count = s.count ∧
    (executeTask s n1 n2 n3).total = s.total ∧
    (executeTask s n1 n2 n3).totalTime = s.totalTime ∧
    (executeTask s n1 n2 n3).running = s.running ∧
    (executeTask s n1 n2 n3).errorsLogged = s.errorsLogged + 1 ∧
    (rest ≠ [] → 0 < (executeTask s n1 n2 n3).timers) := by
  have h := inv_reachable hr
  rw [executeTask_dispatch_throws s n1 n2 n3 hq hb hcf]
  refine ⟨h.throws_pending, rfl, rfl, rfl, rfl, rfl, ?_⟩
  intro hne
  cases rest with
  | nil => exact absurd rfl hne
  | cons a as =>
    show 0 < s.timers - 1 + if 0 < (a :: as).length then 1 else 0
    rw [if_pos (by simp)]
    omega

/-- C10 witness: dispatching the throwing demo task leaves its promise
pending and the counters untouched while logging the error and keeping the
loop alive. -/
theorem throwing_caller_witness :
    (∀ i sub, t2.subs.get? i = some sub → sub.behavior = .throws →
      sub.promise = .pending) ∧
    (executeTask t2 5 5 5).count = t2.count ∧
    (executeTask t2 5 5 5).total = t2.total ∧
    (executeTask t2 5 5 5).totalTime = t2.totalTime ∧
    (executeTask t2 5 5 5).running = t2.running ∧
    (executeTask t2 5 5 5).errorsLogged = t2.errorsLogged + 1 ∧
    ([({ id := 1, behavior := Behavior.returns (Except.ok 3) } : Task ℕ ℕ)] ≠ [] →
      0 < (executeTask t2 5 5 5).timers) :=
  throwing_caller 0 "demoThrow" t2 t2_reach
    { id := 0, behavior := .throws } [{ id := 1, behavior := .returns (.ok 3) }]
    5 5 5 rfl rfl (by decide)

/-- The token-stripping map always acts as a filter removing exactly the
own properties named token. -/
theorem outputArg_eq_filter (o : JsObj) :
    outputArg o = o.filter (fun p => p.1 != "token") := by
  unfold outputArg
  split
  · rfl
  · next hT =>
    have hT' : ∀ p ∈ o, (p.1 == "token") = false := by
      intro p hp
      cases hb : (p.1 == "token") with
      | false => rfl
      | true => exact absurd (List.any_eq_true.mpr ⟨p, hp, hb⟩) hT
    refine (List.filter_eq_self.mpr ?_).symm
    intro p hp
    have hb := hT' p hp
    show (!(p.1 == "token")) = true
    rw [hb]
    rfl

/-- An argument object with no field named token passes through the
token-stripping map unchanged. -/
theorem outputArg_of_no_token (o : JsObj)
    (ho : o.all (fun p => p.1 != "token") = true) : outputArg o = o := by
  rw [outputArg_eq_filter]
  exact List.filter_eq_self.mpr (fun p hp => List.all_eq_true.mp ho p hp)

/-- C6 (amended): along every step, each submission keeps its behavior and
its argument objects unchanged, except that the settlement step replaces
the argument objects by their token-stripped versions (mutating the
caller-owned objects); the stripping removes exactly the own properties
named token and leaves objects without one unchanged. -/
theorem args_token_redaction {E V : Type} (s : FCState E V) (ev : Ev E V)
    (s' : FCState E V) (st : Step s ev s') :
    (∀ i sub, s.subs.get? i = some sub → ∃ sub', s'.subs.get? i = some sub' ∧
      sub'.behavior = sub.behavior ∧
      (sub'.args = sub.args ∨ sub'.args = sub.args.map outputArg)) ∧
    (∀ o : JsObj, outputArg o = o.filter (fun p => p.1 != "token")) ∧
    (∀ o : JsObj, o.all (fun p => p.1 != "token") = true → outputArg o = o) := by
  refine ⟨?_, outputArg_eq_filter, outputArg_of_no_token⟩
  intro i sub hget
  cases st with
  | call b args =>
    refine ⟨sub, ?_, rfl, Or.inl rfl⟩
    show (callStep s b args).subs.get? i = some sub
    simp only [callStep]
    obtain ⟨hlt, -⟩ := List.get?_eq_some.mp hget
    rw [List.get?_append hlt]
    exact hget
  | tick n1 n2 n3 htm h1 h2 h3 =>
    refine ⟨sub, ?_, rfl, Or.inl rfl⟩
    rw [executeTask_subs]
    exact hget
  | settle j n hj hn =>
    cases hrj : s.running.get? j with
    | none =>
      rw [settleRunning_none s hrj n]
      exact ⟨sub, hget, rfl, Or.inl rfl⟩
    | some r =>
      rw [settleRunning_some s hrj n]
      by_cases hij : i = r.id
      · subst hij
        refine ⟨{ behavior := sub.behavior, args := sub.args.map outputArg,
                  promise := settleWith r.outcome sub.promise }, ?_, rfl, Or.inr rfl⟩
        rw [modifyIdx_get?_self, modifyIdx_get?_self, hget]
        rfl
      · refine ⟨sub, ?_, rfl, Or.inl rfl⟩
        rw [modifyIdx_get?_ne _ _ hij, modifyIdx_get?_ne _ _ hij]
        exact hget

/-- C6 amended witness: along the concrete settlement step the demo
submission keeps its behavior and its args are either unchanged or
token-stripped. -/
theorem args_token_redaction_witness :
    ∃ sub', (settleRunning s2 0 15).subs.get? 0 = some sub' ∧
      sub'.behavior = Behavior.returns (Except.ok 7) ∧
      (sub'.args = demoArgs ∨ sub'.args = demoArgs.map outputArg) :=
  (args_token_redaction s2 (Ev.settle 0 15) (settleRunning s2 0 15)
    (Step.settle s2 0 15 (by decide) (by decide))).1 0
    { behavior := .returns (.ok 7), args := demoArgs, promise := .pending } (by decide)

/-- C6 counterexample: the queue does mutate a caller-supplied argument
object: in a concrete reachable execution the submitted object had a token
field and after settlement the object no longer carries it, so the
arguments are not left unchanged. -/
theorem args_unchanged_cex :
    Reachable 0 "demo" s3 ∧
    (s3.subs.get? 0).map Submission.args = some [[("user", "alice")]] ∧
    (s3.subs.get? 0).map Submission.args ≠ some demoArgs :=
  ⟨s3_reach, by decide, by decide⟩

end FlowControl
